import Mathlib

/-!
Verification development for the hex2c converter (Intel HEX, binary and C
include formats).  The definitions below are a shallow embedding of the C
sources: `hex_parse`, `load_hex` and `dump_hex` from `src/hex2c.c`, and the
`dump_hex` variant with an image base and entry point from the source family.
Text lines are lists of characters, machine integers are natural numbers with
explicit truncation where the C code computes modulo a power of two, and the
line loop of `load_hex` consumes an explicit list of input lines.
-/

namespace Hex2c

/-- MAX_SIZE from the source: UINT16_MAX + 1, the 64KB image limit. -/
def MAX_SIZE : Nat := 65536

/-- MIN_LINE from the source: colon(1) count(2) address(4) type(2) checksum(2). -/
def MIN_LINE : Nat := 11

/-- MAX_LINE from the source: MIN_LINE + 2 * UINT8_MAX. -/
def MAX_LINE : Nat := MIN_LINE + 2 * 255

/-- Embedding of the C library test isxdigit, on the character code. -/
def isxdigit (c : Char) : Bool :=
  (48 ≤ c.toNat && c.toNat ≤ 57) || (65 ≤ c.toNat && c.toNat ≤ 70)
    || (97 ≤ c.toNat && c.toNat ≤ 102)

/-- Value of one hex digit, as strtoul reads it; 0 on a non-digit. -/
def hexVal (c : Char) : Nat :=
  if 48 ≤ c.toNat ∧ c.toNat ≤ 57 then c.toNat - 48
  else if 65 ≤ c.toNat ∧ c.toNat ≤ 70 then c.toNat - 55
  else if 97 ≤ c.toNat ∧ c.toNat ≤ 102 then c.toNat - 87
  else 0

/-- Embedding of hex_scan from the source: read the first `len` characters of
the string as one hexadecimal number.  The C code temporarily terminates the
string after `len` characters and calls strtoul; at every call site the
characters read have already been validated as hex digits. -/
def hex_scan (l : List Char) (len : Nat) : Nat :=
  (l.take len).foldl (fun a c => 16 * a + hexVal c) 0

/-- Embedding of the CHUNK record from the source.  The fixed data array
becomes the list of bytes the parser has stored into it, in order. -/
structure CHUNK where
  data : List Nat
  length : Nat
  address : Nat
deriving DecidableEq, Repr

/-- A CHUNK as hex_parse initializes it: length 0, address 0, nothing stored. -/
def chunk0 : CHUNK := { data := [], length := 0, address := 0 }

/-- Embedding of the newline trimming in hex_parse: drop one trailing LF,
then one trailing CR. -/
def stripNL (l : List Char) : List Char :=
  let l1 := if l.getLast? = some '\n' then l.dropLast else l
  if l1.getLast? = some '\r' then l1.dropLast else l1

/-- Embedding of hex_parse from src/hex2c.c.  Returns the record type, or -1
for a rejected line, together with the CHUNK output parameter.  The unsigned
subtraction `length - 2 * count` of the C code is modelled modulo 2^32. -/
def hex_parse (line : List Char) : Int × CHUNK :=
  if line = [] ∨ line.headD ' ' ≠ ':' then (-1, chunk0) else
  let l := stripNL line
  let length := l.length
  if length < MIN_LINE ∨ MAX_LINE < length ∨ length % 2 = 0 then (-1, chunk0) else
  if ¬ ((l.drop 1).all isxdigit = true) then (-1, chunk0) else
  let count := hex_scan (l.drop 1) 2
  let address := hex_scan (l.drop 3) 4
  let type := hex_scan (l.drop 7) 2
  if (length + 2 ^ 32 - 2 * count) % 2 ^ 32 ≠ MIN_LINE ∨ MAX_SIZE < address + count
    then (-1, chunk0) else
  let bytes := (List.range (count + 1)).map (fun i => hex_scan (l.drop (9 + 2 * i)) 2)
  let sum := count + address / 256 + address + type + bytes.sum
  if sum % 256 ≠ 0 then (-1, { data := bytes, length := 0, address := 0 }) else
  ((type : Int), { data := bytes, length := count, address := address })

/-- Warning messages load_hex can issue. -/
inductive WMsg where
  | noEof
  | extended
  | invalid
deriving DecidableEq, Repr

/-- Result of load_hex: the 64KB working buffer, the tracked size, and the
warnings issued, each carrying its 1-based line number. -/
structure LoadOut where
  buf : List Nat
  sz : Nat
  warns : List (Nat × WMsg)
deriving DecidableEq, Repr

/-- Embedding of `memcpy(bin + address, data, length)` on the working buffer. -/
def writeChunk (buf : List Nat) (a : Nat) (bs : List Nat) : List Nat :=
  buf.take a ++ bs ++ buf.drop (a + bs.length)

/-- Embedding of the line loop of load_hex from src/hex2c.c: for each line,
a type-0 record is copied into the buffer and extends the size, type 1 stops
the loop, types 2 to 5 warn about an extended record, and everything else,
including a failed parse, warns about an invalid record.  Running out of
lines warns about the missing EOF record. -/
def load_go : List (List Char) → Nat → List Nat → Nat → LoadOut
  | [], n, buf, sz => { buf := buf, sz := sz, warns := [(n, WMsg.noEof)] }
  | line :: rest, n, buf, sz =>
    let r := hex_parse line
    if r.1 = 0 then
      load_go rest (n + 1) (writeChunk buf r.2.address (r.2.data.take r.2.length))
        (max sz (r.2.address + r.2.length))
    else if r.1 = 1 then { buf := buf, sz := sz, warns := [] }
    else if 2 ≤ r.1 ∧ r.1 ≤ 5 then
      let o := load_go rest (n + 1) buf sz
      { buf := o.buf, sz := o.sz, warns := (n, WMsg.extended) :: o.warns }
    else
      let o := load_go rest (n + 1) buf sz
      { buf := o.buf, sz := o.sz, warns := (n, WMsg.invalid) :: o.warns }

/-- Embedding of load_hex from src/hex2c.c: the working buffer is 64KB of
0xFF filler, line numbers start at 1, the size starts at 0. -/
def load_hex (lines : List (List Char)) : LoadOut :=
  load_go lines 1 (List.replicate MAX_SIZE 255) 0

/-- The binary image load_hex hands back: the working buffer shrunk to the
tracked size (freed entirely when the size is 0). -/
def load_image (lines : List (List Char)) : List Nat :=
  (load_hex lines).buf.take (load_hex lines).sz

/-- Upper-case output hex digit, as printf %X produces it. -/
def hexDigit (n : Nat) : Char :=
  if n < 10 then Char.ofNat (48 + n) else Char.ofNat (55 + n)

/-- Two-digit upper-case hex rendering of a byte, printf %02X. -/
def hex2 (n : Nat) : List Char :=
  [hexDigit (n / 16 % 16), hexDigit (n % 16)]

/-- Four-digit upper-case hex rendering of a 16-bit value, printf %04X. -/
def hex4 (n : Nat) : List Char :=
  [hexDigit (n / 4096 % 16), hexDigit (n / 256 % 16), hexDigit (n / 16 % 16),
    hexDigit (n % 16)]

/-- Embedding of `(uint8_t)(-sum)` on an unsigned 32-bit sum. -/
def negByte (sum : Nat) : Nat := (2 ^ 32 - sum % 2 ^ 32) % 256

/-- One data record line emitted by dump_hex from src/hex2c.c, newline
included as fgets would hand it back: colon, count, address, type 00, data
bytes, checksum over count + (address >> 8) + address + data. -/
def dataLine (addr : Nat) (bs : List Nat) : List Char :=
  ':' :: (hex2 bs.length ++ hex4 addr ++ hex2 0 ++ bs.flatMap hex2 ++
    hex2 (negByte (bs.length + addr / 256 + addr + bs.sum)) ++ ['\n'])

/-- One data record line of the dump_hex variant that carries an image base:
the printed address is base + i, the checksum sum is
count + (base >> 8) + base + (i >> 8) + i + data as in the source. -/
def dataLine2 (base i : Nat) (bs : List Nat) : List Char :=
  ':' :: (hex2 bs.length ++ hex4 (base + i) ++ hex2 0 ++ bs.flatMap hex2 ++
    hex2 (negByte (bs.length + base / 256 + base + i / 256 + i + bs.sum)) ++ ['\n'])

/-- The literal EOF record line, newline included. -/
def eofLine : List Char := (":00000001FF\n").toList

/-- The start-address record the base-and-entry dump_hex variant emits when
the entry point is nonzero: count 04, address 0000, type 03, payload
00 00 hi lo, checksum over 4 + 3 + hi + lo. -/
def startLine (entry : Nat) : List Char :=
  (":040000030000").toList ++ hex2 (entry / 256 % 256) ++ hex2 (entry % 256) ++
    hex2 (negByte (4 + 3 + entry / 256 % 256 + entry % 256)) ++ ['\n']

/-- The chunk loop shared by the dump_hex variants: starting at offset i,
emit one record of at most wrap bytes per iteration while i < sz.  The fuel
argument bounds the iteration count structurally; since wrap is at least 1 at
every call site, sz - i iterations always suffice, and the callers pass sz. -/
def dump_chunks (mk : Nat → List Nat → List Char) (data : List Nat)
    (sz wrap : Nat) : Nat → Nat → List (List Char)
  | 0, _ => []
  | fuel + 1, i =>
    if i < sz ∧ 0 < wrap then
      mk i ((data.drop i).take (min wrap (sz - i))) ::
        dump_chunks mk data sz wrap fuel (i + wrap)
    else []

/-- Embedding of dump_hex from src/hex2c.c: clamp the size to 64KB, default
the wrap to 16 bytes, emit the data records from offset 0, then the EOF
record. -/
def dump_hex (data : List Nat) (o_wrap : Nat) : List (List Char) :=
  let sz := min data.length MAX_SIZE
  let wrap := if o_wrap ≠ 0 then o_wrap else 16
  dump_chunks (fun i bs => dataLine i bs) data sz wrap sz 0 ++ [eofLine]

/-- Embedding of the dump_hex variant with an image base and entry point:
data records carry base + offset addresses, a start-address record precedes
the EOF record when the entry point is nonzero. -/
def dump_hex2 (data : List Nat) (base entry o_wrap : Nat) : List (List Char) :=
  let wrap := if o_wrap ≠ 0 then o_wrap else 16
  dump_chunks (fun i bs => dataLine2 base i bs) data data.length wrap data.length 0 ++
    (if 0 < entry then [startLine entry] else []) ++ [eofLine]

/-- Parse-failure taxonomy of the specification, restricted to the reasons
the single failure value of hex_parse can arise from: structural violation of
the line grammar, data past the 16-bit address space, checksum mismatch. -/
inductive PErr where
  | malformed
  | addrOverflow
  | checksum
deriving DecidableEq, Repr

/-- Classification of a line by the taxonomy of the specification, following
the order in which hex_parse checks the conditions. -/
def hex_classify (line : List Char) : Option PErr :=
  if line = [] ∨ line.headD ' ' ≠ ':' then some PErr.malformed else
  let l := stripNL line
  let length := l.length
  if length < MIN_LINE ∨ MAX_LINE < length ∨ length % 2 = 0 then some PErr.malformed else
  if ¬ ((l.drop 1).all isxdigit = true) then some PErr.malformed else
  let count := hex_scan (l.drop 1) 2
  let address := hex_scan (l.drop 3) 4
  if (length + 2 ^ 32 - 2 * count) % 2 ^ 32 ≠ MIN_LINE ∨ MAX_SIZE < address + count then
    (if length ≠ MIN_LINE + 2 * count then some PErr.malformed else some PErr.addrOverflow)
  else
  let type := hex_scan (l.drop 7) 2
  let bytes := (List.range (count + 1)).map (fun i => hex_scan (l.drop (9 + 2 * i)) 2)
  if (count + address / 256 + address + type + bytes.sum) % 256 ≠ 0 then some PErr.checksum
  else none

/-- The Malformed condition of claim C5, parametrized by the length parity it
rejects: the claim as written rejects odd stripped lengths (parity 1), the
code rejects even ones (parity 0).  The remaining disjuncts are the ones the
claim lists: empty line, length below 11 or above 11 + 2 * 255, first
character not a colon, a non-hex-digit character, or a stripped length that
differs from 11 + 2 * count. -/
def malformedCond (parity : Nat) (line : List Char) : Prop :=
  line = [] ∨ (stripNL line).length % 2 = parity ∨ (stripNL line).length < MIN_LINE ∨
    MAX_LINE < (stripNL line).length ∨ line.headD ' ' ≠ ':' ∨
    ¬ (((stripNL line).drop 1).all isxdigit = true) ∨
    (stripNL line).length ≠ MIN_LINE + 2 * hex_scan ((stripNL line).drop 1) 2

instance (parity : Nat) (line : List Char) : Decidable (malformedCond parity line) := by
  unfold malformedCond
  infer_instance

/-- The byte sum of claim C1 for one line: count, address high byte, address
low byte, type, every payload byte and the checksum byte, decoded from the
stripped line. -/
def lineByteSum (line : List Char) : Nat :=
  let l := stripNL line
  let count := hex_scan (l.drop 1) 2
  count + hex_scan (l.drop 3) 2 + hex_scan (l.drop 5) 2 + hex_scan (l.drop 7) 2 +
    ((List.range (count + 1)).map (fun i => hex_scan (l.drop (9 + 2 * i)) 2)).sum

/-- The Data records load_hex accepts and applies, in order, stopping at the
first EOF record, written from the description of the load pass in the
specification. -/
def acceptedData : List (List Char) → List CHUNK
  | [] => []
  | line :: rest =>
    let r := hex_parse line
    if r.1 = 0 then r.2 :: acceptedData rest
    else if r.1 = 1 then []
    else acceptedData rest

/-- Fold of the written extents over a record list, with explicit start. -/
def extFold (cs : List CHUNK) (s : Nat) : Nat :=
  cs.foldl (fun t c => max t (c.address + c.length)) s

/-- Highest address + length over the accepted Data records. -/
def maxExtent (cs : List CHUNK) : Nat := extFold cs 0

/-- Lowest Data record address, MAX_SIZE when there is none. -/
def minExtent (cs : List CHUNK) : Nat :=
  cs.foldl (fun t c => min t c.address) MAX_SIZE

/-- Record kinds of the specification. -/
inductive RKind where
  | data
  | eof
  | extended
  | invalid
deriving DecidableEq, Repr

/-- The kind mapping of the specification: type 0 is Data, 1 is EOF, 2 to 5
are the extended-address family, everything else is invalid. -/
def classifyType (t : Int) : RKind :=
  if t = 0 then RKind.data
  else if t = 1 then RKind.eof
  else if 2 ≤ t ∧ t ≤ 5 then RKind.extended
  else RKind.invalid

/-! ## Basic facts about digits and scanning -/

theorem hexVal_lt (c : Char) : hexVal c < 16 := by
  unfold hexVal
  split_ifs <;> omega

theorem hex_scan_le2 (l : List Char) : hex_scan l 2 ≤ 255 := by
  rcases l with _ | ⟨a, _ | ⟨b, t⟩⟩ <;> simp [hex_scan]
  · have := hexVal_lt a; omega
  · have := hexVal_lt a; have := hexVal_lt b; omega

theorem hex_scan_le4 (l : List Char) : hex_scan l 4 ≤ 65535 := by
  rcases l with _ | ⟨a, _ | ⟨b, _ | ⟨c, _ | ⟨d, t⟩⟩⟩⟩ <;> simp [hex_scan]
  · have := hexVal_lt a; omega
  · have := hexVal_lt a; have := hexVal_lt b; omega
  · have := hexVal_lt a; have := hexVal_lt b; have := hexVal_lt c; omega
  · have := hexVal_lt a; have := hexVal_lt b; have := hexVal_lt c
    have := hexVal_lt d; omega

theorem hexVal_hexDigit : ∀ m, m < 16 → hexVal (hexDigit m) = m := by decide

theorem isxdigit_hexDigit : ∀ m, m < 16 → isxdigit (hexDigit m) = true := by decide

theorem hexDigit_ne_nl : ∀ m, m < 16 → hexDigit m ≠ '\n' := by decide

theorem hexDigit_ne_cr : ∀ m, m < 16 → hexDigit m ≠ '\r' := by decide

theorem negByte_lt (s : Nat) : negByte s < 256 :=
  Nat.mod_lt _ (by norm_num)

theorem negByte_sum (s : Nat) : (s + negByte s) % 256 = 0 := by
  unfold negByte
  omega

theorem hex_scan_hex2 (n : Nat) (hn : n < 256) (r : List Char) :
    hex_scan (hex2 n ++ r) 2 = n := by
  simp only [hex2, List.cons_append, List.nil_append]
  simp only [hex_scan, List.take_succ_cons, List.take_zero, List.foldl]
  rw [hexVal_hexDigit _ (Nat.mod_lt _ (by norm_num)),
    hexVal_hexDigit _ (Nat.mod_lt _ (by norm_num))]
  omega

theorem hex_scan_hex4 (n : Nat) (hn : n < 65536) (r : List Char) :
    hex_scan (hex4 n ++ r) 4 = n := by
  simp only [hex4, List.cons_append, List.nil_append]
  simp only [hex_scan, List.take_succ_cons, List.take_zero, List.foldl]
  rw [hexVal_hexDigit _ (Nat.mod_lt _ (by norm_num)),
    hexVal_hexDigit _ (Nat.mod_lt _ (by norm_num)),
    hexVal_hexDigit _ (Nat.mod_lt _ (by norm_num)),
    hexVal_hexDigit _ (Nat.mod_lt _ (by norm_num))]
  omega

theorem hex2_length (n : Nat) : (hex2 n).length = 2 := rfl

theorem hex4_length (n : Nat) : (hex4 n).length = 4 := rfl

theorem flat_length (bs : List Nat) : (bs.flatMap hex2).length = 2 * bs.length := by
  induction bs with
  | nil => simp
  | cons b t ih => simp [ih, hex2]; omega

theorem hex2_all (n : Nat) : (hex2 n).all isxdigit = true := by
  simp [hex2, isxdigit_hexDigit _ (Nat.mod_lt _ (by norm_num))]

theorem hex4_all (n : Nat) : (hex4 n).all isxdigit = true := by
  simp [hex4, isxdigit_hexDigit _ (Nat.mod_lt _ (by norm_num))]

theorem flat_all (bs : List Nat) : (bs.flatMap hex2).all isxdigit = true := by
  induction bs with
  | nil => simp
  | cons b t ih => simp_all [hex2_all, List.all_append, hex2,
      isxdigit_hexDigit _ (Nat.mod_lt _ (by norm_num))]

theorem stripNL_concat (l : List Char) (c : Char) (hc : l.getLast? = some c)
    (h2 : c ≠ '\r') : stripNL (l ++ ['\n']) = l := by
  unfold stripNL
  rw [List.getLast?_concat, if_pos rfl, List.dropLast_concat]
  simp [hc, h2]

theorem scan_flat (B : List Nat) (hB : ∀ b ∈ B, b < 256) (r : List Char) :
    (List.range B.length).map
      (fun i => hex_scan ((B.flatMap hex2 ++ r).drop (2 * i)) 2) = B := by
  induction B with
  | nil => simp
  | cons b T ih =>
    have hb : b < 256 := hB b (by simp)
    have hT : ∀ x ∈ T, x < 256 := fun x hx => hB x (by simp [hx])
    simp only [List.length_cons, List.range_succ_eq_map, List.map_cons, List.map_map]
    have h0 : hex_scan (((b :: T).flatMap hex2 ++ r).drop (2 * 0)) 2 = b := by
      simp only [Nat.mul_zero, List.drop_zero, List.flatMap_cons, List.append_assoc]
      exact hex_scan_hex2 b hb _
    rw [h0]
    congr 1
    calc (List.range T.length).map
          ((fun i => hex_scan (((b :: T).flatMap hex2 ++ r).drop (2 * i)) 2) ∘ Nat.succ)
        = (List.range T.length).map
          (fun i => hex_scan ((T.flatMap hex2 ++ r).drop (2 * i)) 2) := by
          apply List.map_congr_left
          intro i _
          have h2i : 2 * Nat.succ i = 2 * i + 1 + 1 := by omega
          simp only [Function.comp_apply, h2i, List.flatMap_cons, hex2,
            List.cons_append, List.append_assoc, List.drop_succ_cons, List.nil_append]
      _ = T := ih hT

theorem hex_parse_record (a t k : Nat) (bs : List Nat) (hb : ∀ b ∈ bs, b < 256)
    (h255 : bs.length ≤ 255) (ht : t < 256) (hk : k < 256)
    (ha : a ≤ 65535) (hfit : a + bs.length ≤ 65536)
    (hsum : (bs.length + a / 256 + a + t + bs.sum + k) % 256 = 0) :
    hex_parse ((':' :: (hex2 bs.length ++ hex4 a ++ hex2 t ++ bs.flatMap hex2 ++ hex2 k))
        ++ ['\n']) =
      ((t : Int), { data := bs ++ [k], length := bs.length, address := a }) := by
  set X : List Char :=
    hex2 bs.length ++ hex4 a ++ hex2 t ++ bs.flatMap hex2 ++ hex2 k with hX
  have hXlast : (':' :: X).getLast? = some (hexDigit (k % 16)) := by
    rw [show (':' :: X) = [':'] ++ X from rfl,
      List.getLast?_append_of_ne_nil [':'] (by simp [hX, hex2]), hX,
      List.getLast?_append_of_ne_nil _ (by simp [hex2])]
    simp [hex2]
  have hstrip : stripNL ((':' :: X) ++ ['\n']) = ':' :: X :=
    stripNL_concat _ _ hXlast (hexDigit_ne_cr _ (Nat.mod_lt _ (by norm_num)))
  have hlen : (stripNL ((':' :: X) ++ ['\n'])).length = 11 + 2 * bs.length := by
    rw [hstrip, hX]
    simp only [List.length_cons, List.length_append, hex2_length, hex4_length, flat_length]
    omega
  have hd1 : (stripNL ((':' :: X) ++ ['\n'])).drop 1 = X := by
    rw [hstrip]; rfl
  have hd3 : (stripNL ((':' :: X) ++ ['\n'])).drop 3 =
      hex4 a ++ (hex2 t ++ (bs.flatMap hex2 ++ hex2 k)) := by
    rw [hstrip, hX]
    rw [show ':' :: (hex2 bs.length ++ hex4 a ++ hex2 t ++ bs.flatMap hex2 ++ hex2 k) =
      (':' :: hex2 bs.length) ++ (hex4 a ++ (hex2 t ++ (bs.flatMap hex2 ++ hex2 k)))
      by simp [hex2]]
    exact List.drop_left' rfl
  have hd7 : (stripNL ((':' :: X) ++ ['\n'])).drop 7 =
      hex2 t ++ (bs.flatMap hex2 ++ hex2 k) := by
    rw [hstrip, hX]
    rw [show ':' :: (hex2 bs.length ++ hex4 a ++ hex2 t ++ bs.flatMap hex2 ++ hex2 k) =
      (':' :: (hex2 bs.length ++ hex4 a)) ++ (hex2 t ++ (bs.flatMap hex2 ++ hex2 k))
      by simp [hex2, hex4]]
    exact List.drop_left' (by simp [hex2, hex4])
  have hd9 : (stripNL ((':' :: X) ++ ['\n'])).drop 9 = (bs ++ [k]).flatMap hex2 ++ [] := by
    rw [hstrip, hX]
    rw [show ':' :: (hex2 bs.length ++ hex4 a ++ hex2 t ++ bs.flatMap hex2 ++ hex2 k) =
      (':' :: (hex2 bs.length ++ hex4 a ++ hex2 t)) ++ (bs.flatMap hex2 ++ hex2 k)
      by simp [hex2, hex4]]
    rw [List.drop_left' (by simp [hex2, hex4])]
    simp
  have hc2 : hex_scan ((stripNL ((':' :: X) ++ ['\n'])).drop 1) 2 = bs.length := by
    rw [hd1, hX]
    simp only [List.append_assoc]
    exact hex_scan_hex2 _ (by omega) _
  have ha4 : hex_scan ((stripNL ((':' :: X) ++ ['\n'])).drop 3) 4 = a := by
    rw [hd3]
    exact hex_scan_hex4 _ (by omega) _
  have ht2 : hex_scan ((stripNL ((':' :: X) ++ ['\n'])).drop 7) 2 = t := by
    rw [hd7]
    exact hex_scan_hex2 _ ht _
  have hmem : ∀ b ∈ bs ++ [k], b < 256 := by
    intro b hbm
    rcases List.mem_append.mp hbm with h | h
    · exact hb b h
    · simp at h; omega
  have hbytes : List.map
      (fun i => hex_scan (List.drop (9 + 2 * i) (stripNL ((':' :: X) ++ ['\n']))) 2)
      (List.range (bs.length + 1)) = bs ++ [k] := by
    have hcongr : ∀ i ∈ List.range (bs.length + 1),
        hex_scan (List.drop (9 + 2 * i) (stripNL ((':' :: X) ++ ['\n']))) 2 =
        hex_scan (List.drop (2 * i) ((bs ++ [k]).flatMap hex2 ++ [])) 2 := by
      intro i _
      congr 1
      rw [← List.drop_drop, hd9]
    rw [List.map_congr_left hcongr,
      show bs.length + 1 = (bs ++ [k]).length by simp]
    exact scan_flat _ hmem []
  have hall : ((stripNL ((':' :: X) ++ ['\n'])).drop 1).all isxdigit = true := by
    rw [hd1, hX]
    simp only [List.all_append, hex2_all, hex4_all, flat_all, Bool.and_self]
  simp only [hex_parse, MIN_LINE, MAX_LINE, MAX_SIZE]
  rw [hc2, ha4, ht2, hlen, hbytes, hall]
  rw [if_neg (by simp)]
  rw [if_neg (by omega)]
  rw [if_neg (by simp)]
  rw [if_neg (by omega)]
  rw [if_neg (by simp only [List.sum_append, List.sum_cons, List.sum_nil]; omega)]

theorem hex_parse_dataLine (addr : Nat) (bs : List Nat) (hb : ∀ b ∈ bs, b < 256)
    (h1 : 1 ≤ bs.length) (h255 : bs.length ≤ 255) (hfit : addr + bs.length ≤ 65536) :
    hex_parse (dataLine addr bs) =
      (0, { data := bs ++ [negByte (bs.length + addr / 256 + addr + bs.sum)],
            length := bs.length, address := addr }) := by
  have hshape : dataLine addr bs =
      (':' :: (hex2 bs.length ++ hex4 addr ++ hex2 0 ++ bs.flatMap hex2 ++
        hex2 (negByte (bs.length + addr / 256 + addr + bs.sum)))) ++ ['\n'] := by
    simp [dataLine]
  rw [hshape, hex_parse_record addr 0 _ bs hb h255 (by norm_num) (negByte_lt _)
    (by omega) (by omega)
    (by have := negByte_sum (bs.length + addr / 256 + addr + bs.sum); omega)]
  simp

theorem hex_parse_eofLine :
    hex_parse eofLine = (1, { data := [255], length := 0, address := 0 }) := by decide

theorem hex_parse_cases (line : List Char) :
    ((hex_parse line).1 = -1 ∧ (hex_parse line).2.address = 0 ∧
      (hex_parse line).2.length = 0) ∨
    (hex_parse line = ((hex_scan ((stripNL line).drop 7) 2 : Int),
      { data := (List.range (hex_scan ((stripNL line).drop 1) 2 + 1)).map
          (fun i => hex_scan ((stripNL line).drop (9 + 2 * i)) 2),
        length := hex_scan ((stripNL line).drop 1) 2,
        address := hex_scan ((stripNL line).drop 3) 4 }) ∧
      hex_scan ((stripNL line).drop 3) 4 + hex_scan ((stripNL line).drop 1) 2 ≤ 65536) := by
  simp only [hex_parse, MIN_LINE, MAX_LINE, MAX_SIZE]
  split_ifs with h1 h2 h3 h4 h5
  all_goals try exact Or.inl ⟨rfl, rfl, rfl⟩
  refine Or.inr ⟨rfl, ?_⟩
  push_neg at h4
  omega

theorem hex_parse_shape (line : List Char) (h : (hex_parse line).1 ≠ -1) :
    (hex_parse line).2.data.length = (hex_parse line).2.length + 1 ∧
    (hex_parse line).2.address + (hex_parse line).2.length ≤ 65536 ∧
    (hex_parse line).2.length ≤ 255 := by
  rcases hex_parse_cases line with ⟨hf, _⟩ | ⟨he, hb⟩
  · exact absurd hf h
  · rw [he]
    exact ⟨by simp, hb, hex_scan_le2 _⟩

theorem hex_parse_fail_chunk (line : List Char) (h : (hex_parse line).1 = -1) :
    (hex_parse line).2.address = 0 ∧ (hex_parse line).2.length = 0 := by
  rcases hex_parse_cases line with ⟨_, ha, hl⟩ | ⟨he, _⟩
  · exact ⟨ha, hl⟩
  · rw [he] at h
    simp at h

theorem chunk_count_step (sz wrap i : Nat) (hw : 0 < wrap) (hc : i < sz) :
    (sz - i + wrap - 1) / wrap = (sz - (i + wrap) + wrap - 1) / wrap + 1 := by
  by_cases hb : wrap ≤ sz - i
  · rw [show sz - i + wrap - 1 = (sz - (i + wrap) + wrap - 1) + wrap by omega,
      Nat.add_div_right _ hw]
  · rw [show sz - i + wrap - 1 = sz - i - 1 + wrap by omega, Nat.add_div_right _ hw,
      Nat.div_eq_of_lt (show sz - i - 1 < wrap by omega),
      show sz - (i + wrap) = 0 by omega,
      show 0 + wrap - 1 = wrap - 1 by omega,
      Nat.div_eq_of_lt (show wrap - 1 < wrap by omega)]

theorem range_map_succ {α : Type} (n : Nat) (F : Nat → α) :
    (List.range (n + 1)).map F = F 0 :: (List.range n).map (fun k => F (k + 1)) := by
  rw [List.range_succ_eq_map, List.map_cons, List.map_map]
  simp [Function.comp_def, Nat.succ_eq_add_one]

theorem dump_chunks_eq (mk : Nat → List Nat → List Char) (data : List Nat)
    (sz wrap : Nat) (hw : 0 < wrap) :
    ∀ fuel i, sz - i ≤ fuel →
    dump_chunks mk data sz wrap fuel i =
      (List.range ((sz - i + wrap - 1) / wrap)).map
        (fun k => mk (i + wrap * k)
          ((data.drop (i + wrap * k)).take (min wrap (sz - (i + wrap * k))))) := by
  intro fuel
  induction fuel with
  | zero =>
    intro i hi
    rw [show sz - i = 0 by omega]
    have hz : (wrap - 1) / wrap = 0 := Nat.div_eq_of_lt (by omega)
    simp [dump_chunks, hz]
  | succ f ih =>
    intro i hi
    by_cases hc : i < sz
    · simp only [dump_chunks, if_pos (And.intro hc hw)]
      rw [ih (i + wrap) (by omega)]
      rw [chunk_count_step sz wrap i hw hc, range_map_succ]
      simp only [List.cons.injEq]
      refine ⟨by simp, ?_⟩
      apply List.map_congr_left
      intro k _
      rw [show i + wrap + wrap * k = i + wrap * (k + 1) by ring]
    · simp only [dump_chunks, if_neg (by omega : ¬ (i < sz ∧ 0 < wrap))]
      rw [show sz - i = 0 by omega]
      have hz : (wrap - 1) / wrap = 0 := Nat.div_eq_of_lt (by omega)
      simp [hz]

theorem dump_hex_eq (data : List Nat) (o_wrap w : Nat)
    (hw : w = if o_wrap ≠ 0 then o_wrap else 16) :
    dump_hex data o_wrap =
      (List.range ((min data.length MAX_SIZE + w - 1) / w)).map
        (fun k => dataLine (w * k)
          ((data.drop (w * k)).take (min w (min data.length MAX_SIZE - w * k)))) ++
        [eofLine] := by
  have hw0 : 0 < w := by
    rw [hw]; split_ifs with h <;> omega
  simp only [dump_hex]
  rw [← hw]
  rw [dump_chunks_eq _ data _ w hw0 _ 0 (by omega)]
  simp

theorem dump_hex2_eq (data : List Nat) (base entry o_wrap w : Nat)
    (hw : w = if o_wrap ≠ 0 then o_wrap else 16) :
    dump_hex2 data base entry o_wrap =
      (List.range ((data.length + w - 1) / w)).map
        (fun k => dataLine2 base (w * k)
          ((data.drop (w * k)).take (min w (data.length - w * k)))) ++
        (if 0 < entry then [startLine entry] else []) ++ [eofLine] := by
  have hw0 : 0 < w := by
    rw [hw]; split_ifs with h <;> omega
  simp only [dump_hex2]
  rw [← hw]
  rw [dump_chunks_eq _ data _ w hw0 _ 0 (by omega)]
  simp

theorem writeChunk_length (buf : List Nat) (a : Nat) (bs : List Nat)
    (h : a + bs.length ≤ buf.length) :
    (writeChunk buf a bs).length = buf.length := by
  unfold writeChunk
  simp only [List.length_append, List.length_take, List.length_drop]
  omega

theorem writeChunk_getElem_outside (buf : List Nat) (a : Nat) (bs : List Nat) (p : Nat)
    (hp : p < a ∨ a + bs.length ≤ p) (hfit : a + bs.length ≤ buf.length) :
    (writeChunk buf a bs)[p]? = buf[p]? := by
  unfold writeChunk
  rcases hp with hlt | hge
  · have c1 : p < (List.take a buf ++ bs).length := by
      simp only [List.length_append, List.length_take]
      omega
    have c2 : p < (List.take a buf).length := by
      simp only [List.length_take]
      omega
    rw [List.getElem?_append, if_pos c1, List.getElem?_append, if_pos c2]
    exact List.getElem?_take_of_lt hlt
  · have c1 : ¬ p < (List.take a buf ++ bs).length := by
      simp only [List.length_append, List.length_take]
      omega
    rw [List.getElem?_append, if_neg c1, List.getElem?_drop]
    congr 1
    simp only [List.length_append, List.length_take]
    omega

theorem acceptedData_mem (lines : List (List Char)) :
    ∀ c ∈ acceptedData lines, c.address + c.length ≤ 65536 ∧ c.length ≤ c.data.length := by
  induction lines with
  | nil => simp [acceptedData]
  | cons line rest ih =>
    simp only [acceptedData]
    split_ifs with h0 h1
    · intro c hc
      rcases List.mem_cons.mp hc with rfl | hc
      · have hs := hex_parse_shape line (by rw [h0]; norm_num)
        exact ⟨hs.2.1, by omega⟩
      · exact ih c hc
    · simp
    · exact ih

theorem load_go_buf_length (lines : List (List Char)) :
    ∀ n buf s, buf.length = 65536 → (load_go lines n buf s).buf.length = 65536 := by
  induction lines with
  | nil => intro n buf s h; simpa [load_go]
  | cons line rest ih =>
    intro n buf s h
    simp only [load_go]
    split_ifs with h0 h1 h2
    · apply ih
      rw [writeChunk_length]
      · exact h
      · have hs := hex_parse_shape line (by rw [h0]; norm_num)
        simp only [List.length_take]
        omega
    · simpa
    · exact ih _ _ _ h
    · exact ih _ _ _ h

theorem load_go_sz (lines : List (List Char)) :
    ∀ n buf s, (load_go lines n buf s).sz = extFold (acceptedData lines) s := by
  induction lines with
  | nil => intro n buf s; simp [load_go, acceptedData, extFold]
  | cons line rest ih =>
    intro n buf s
    simp only [load_go, acceptedData]
    split_ifs with h0 h1
    · rw [ih]
      simp [extFold]
    · simp [extFold]
    · exact ih _ _ _
    · exact ih _ _ _

theorem extFold_le (cs : List CHUNK) :
    ∀ s, s ≤ 65536 → (∀ c ∈ cs, c.address + c.length ≤ 65536) → extFold cs s ≤ 65536 := by
  induction cs with
  | nil => intro s hs _; exact hs
  | cons c t ih =>
    intro s hs hmem
    have h1 : c.address + c.length ≤ 65536 := hmem c (by simp)
    simp only [extFold, List.foldl_cons]
    exact ih _ (by omega) (fun x hx => hmem x (by simp [hx]))

theorem load_go_getElem_outside (lines : List (List Char)) :
    ∀ n buf s p, buf.length = 65536 →
    (∀ c ∈ acceptedData lines, p < c.address ∨ c.address + c.length ≤ p) →
    (load_go lines n buf s).buf[p]? = buf[p]? := by
  induction lines with
  | nil => intro n buf s p _ _; simp [load_go]
  | cons line rest ih =>
    intro n buf s p hbuf hout
    simp only [load_go, acceptedData] at hout ⊢
    split_ifs with h0 h1
    · rw [if_pos h0] at hout
      have hs := hex_parse_shape line (by rw [h0]; norm_num)
      have hcp := hout (hex_parse line).2 (by simp)
      have hlen : ((hex_parse line).2.data.take (hex_parse line).2.length).length =
          (hex_parse line).2.length := by
        simp only [List.length_take]
        omega
      rw [ih _ _ _ _ (by rw [writeChunk_length buf _ _ (by rw [hlen]; omega)]; exact hbuf)
        (fun c hc => hout c (by simp [hc]))]
      apply writeChunk_getElem_outside
      · rw [hlen]; omega
      · rw [hlen]; omega
    · rfl
    · rw [if_neg h0, if_neg h1] at hout
      exact ih _ _ _ _ hbuf hout
    · rw [if_neg h0, if_neg h1] at hout
      exact ih _ _ _ _ hbuf hout

theorem load_eof_only (n : Nat) (buf : List Nat) (s : Nat) :
    load_go [eofLine] n buf s = { buf := buf, sz := s, warns := [] } := by
  simp [load_go, hex_parse_eofLine]

set_option maxHeartbeats 1000000 in
theorem load_dump_chunks (data : List Nat) (wrap : Nat) (hw : 1 ≤ wrap) (hw2 : wrap ≤ 255)
    (hb : ∀ b ∈ data, b < 256) (hlen : data.length ≤ 65536) :
    ∀ fuel i n buf s, data.length - i ≤ fuel → buf.length = 65536 →
    load_go (dump_chunks (fun a bs => dataLine a bs) data data.length wrap fuel i ++
        [eofLine]) n buf s =
      if i < data.length then
        { buf := buf.take i ++ data.drop i ++ buf.drop data.length,
          sz := max s data.length, warns := [] }
      else { buf := buf, sz := s, warns := [] } := by
  intro fuel
  induction fuel with
  | zero =>
    intro i n buf s hf hbuf
    rw [if_neg (by omega)]
    simp only [dump_chunks, List.nil_append]
    exact load_eof_only n buf s
  | succ f ihf =>
    intro i n buf s hf hbuf
    by_cases hc : i < data.length
    · simp only [dump_chunks, if_pos (And.intro hc (by omega : 0 < wrap))]
      set chunk : List Nat := (data.drop i).take (min wrap (data.length - i)) with hchunk
      have hclen : chunk.length = min wrap (data.length - i) := by
        rw [hchunk]
        simp only [List.length_take, List.length_drop]
        omega
      have hcmem : ∀ b ∈ chunk, b < 256 := by
        intro b hbm
        exact hb b (List.mem_of_mem_drop (List.mem_of_mem_take hbm))
      have hparse := hex_parse_dataLine i chunk hcmem (by rw [hclen]; omega)
        (by rw [hclen]; omega) (by rw [hclen]; omega)
      simp only [List.cons_append, load_go, hparse]
      simp only [if_true]
      have htake : (chunk ++ [negByte (chunk.length + i / 256 + i + chunk.sum)]).take
          chunk.length = chunk := List.take_left' rfl
      simp only [htake]
      simp only [List.append_eq]
      rw [ihf (i + wrap) (n + 1) _ _ (by omega)
        (by rw [writeChunk_length _ _ _ (by rw [hclen]; omega)]; exact hbuf)]
      by_cases hc2 : i + wrap < data.length
      · rw [if_pos hc2, if_pos hc]
        have hcw : chunk.length = wrap := by omega
        have hTC : (buf.take i ++ chunk).length = i + wrap := by
          simp only [List.length_append, List.length_take]
          omega
        have hbuf1 : writeChunk buf i chunk =
            (buf.take i ++ chunk) ++ buf.drop (i + wrap) := by
          unfold writeChunk
          rw [hcw]
        rw [hbuf1]
        have e1 : ((buf.take i ++ chunk) ++ buf.drop (i + wrap)).take (i + wrap) =
            buf.take i ++ chunk := List.take_left' hTC
        have e2 : ((buf.take i ++ chunk) ++ buf.drop (i + wrap)).drop data.length =
            buf.drop data.length := by
          rw [show data.length = (buf.take i ++ chunk).length +
            (data.length - (i + wrap)) by rw [hTC]; omega]
          rw [List.drop_append, List.drop_drop]
          congr 1
          omega
        rw [e1, e2]
        have e3 : chunk ++ data.drop (i + wrap) = data.drop i := by
          rw [hchunk, show min wrap (data.length - i) = wrap by omega]
          rw [show data.drop (i + wrap) = (data.drop i).drop wrap by
            rw [List.drop_drop]]
          exact List.take_append_drop wrap (data.drop i)
        have e4 : (buf.take i ++ chunk) ++ data.drop (i + wrap) =
            buf.take i ++ data.drop i := by
          rw [List.append_assoc, e3]
        rw [e4]
        have e5 : (s ⊔ (i + chunk.length)) ⊔ data.length = s ⊔ data.length := by
          omega
        rw [e5]
      · rw [if_neg hc2, if_pos hc]
        have hcw : chunk.length = data.length - i := by omega
        have hbuf1 : writeChunk buf i chunk =
            buf.take i ++ chunk ++ buf.drop data.length := by
          unfold writeChunk
          rw [hcw]
          congr 2
          omega
        have hchunk2 : chunk = data.drop i := by
          rw [hchunk, show min wrap (data.length - i) = data.length - i by omega]
          exact List.take_of_length_le (by simp)
        rw [hbuf1, hchunk2]
        have e5 : s ⊔ (i + (List.drop i data).length) = s ⊔ data.length := by
          simp only [List.length_drop]
          omega
        rw [e5]
    · simp only [dump_chunks, if_neg (by omega : ¬ (i < data.length ∧ 0 < wrap)),
        List.nil_append]
      rw [if_neg hc]
      exact load_eof_only n buf s

theorem load_dump_roundtrip (data : List Nat) (o_wrap : Nat)
    (hb : ∀ b ∈ data, b < 256) (hlen : data.length ≤ 65536) (hwrap : o_wrap ≤ 255) :
    load_image (dump_hex data o_wrap) = data ∧
    (load_hex (dump_hex data o_wrap)).sz = data.length ∧
    (load_hex (dump_hex data o_wrap)).warns = [] := by
  have hw1 : 1 ≤ (if o_wrap ≠ 0 then o_wrap else 16) := by split_ifs <;> omega
  have hw2 : (if o_wrap ≠ 0 then o_wrap else 16) ≤ 255 := by split_ifs <;> omega
  have hsz : min data.length MAX_SIZE = data.length := by
    simp only [MAX_SIZE]
    omega
  have hRB : (List.replicate MAX_SIZE 255).length = 65536 := by
    rw [List.length_replicate, MAX_SIZE]
  have hmain := load_dump_chunks data _ hw1 hw2 hb hlen data.length 0 1
    (List.replicate MAX_SIZE 255) 0 (by omega) hRB
  have hdump : load_hex (dump_hex data o_wrap) =
      load_go (dump_chunks (fun a bs => dataLine a bs) data data.length
        (if o_wrap ≠ 0 then o_wrap else 16) data.length 0 ++ [eofLine]) 1
        (List.replicate MAX_SIZE 255) 0 := by
    unfold load_hex dump_hex
    rw [hsz]
  rw [load_image, hdump, hmain]
  by_cases h0 : 0 < data.length
  · rw [if_pos h0]
    refine ⟨?_, by simp [Nat.zero_max], rfl⟩
    simp only [List.take_zero, List.drop_zero, List.nil_append, Nat.zero_max]
    exact List.take_left' rfl
  · rw [if_neg h0]
    have hnil : data = [] := List.length_eq_zero.mp (by omega)
    subst hnil
    simp

theorem lenformula_iff (length count : Nat) (hle : length ≤ 521) (hc : count ≤ 255) :
    (length + 2 ^ 32 - 2 * count) % 2 ^ 32 = 11 ↔ length = 11 + 2 * count := by
  omega

theorem hex_classify_fail_iff (line : List Char) :
    ((hex_parse line).1 = -1 ↔ hex_classify line ≠ none) := by
  simp only [hex_parse, hex_classify, MIN_LINE, MAX_LINE, MAX_SIZE]
  split_ifs <;> simp

set_option maxHeartbeats 2000000 in
theorem hex_classify_malformed_iff (line : List Char) :
    (hex_classify line = some PErr.malformed ↔ malformedCond 0 line) := by
  have hcnt := hex_scan_le2 (List.drop 1 (stripNL line))
  simp only [hex_classify, malformedCond, MIN_LINE, MAX_LINE, MAX_SIZE]
  split_ifs with h1 h2 h3 h4 h5 h6
  · exact iff_of_true rfl (by tauto)
  · exact iff_of_true rfl (by tauto)
  · exact iff_of_true rfl (by tauto)
  · exact iff_of_false (by simp)
      (by push_neg; refine ⟨?_, ?_, ?_, ?_, ?_, ?_, ?_⟩ <;> first | tauto | omega)
  · exact iff_of_false (by simp)
      (by push_neg; refine ⟨?_, ?_, ?_, ?_, ?_, ?_, ?_⟩ <;> first | tauto | omega)
  · exact iff_of_false (by simp)
      (by push_neg; refine ⟨?_, ?_, ?_, ?_, ?_, ?_, ?_⟩ <;> first | tauto | omega)
  · exact iff_of_true rfl (by tauto)

set_option maxHeartbeats 2000000 in
theorem hex_classify_overflow_iff (line : List Char) :
    (hex_classify line = some PErr.addrOverflow ↔
      ¬ malformedCond 0 line ∧
        MAX_SIZE < hex_scan ((stripNL line).drop 3) 4 + hex_scan ((stripNL line).drop 1) 2) := by
  have hcnt := hex_scan_le2 (List.drop 1 (stripNL line))
  simp only [hex_classify, malformedCond, MIN_LINE, MAX_LINE, MAX_SIZE]
  split_ifs with h1 h2 h3 h4 h5 h6
  · exact iff_of_false (by simp) (fun h => h.1 (by tauto))
  · exact iff_of_false (by simp) (fun h => h.1 (by tauto))
  · exact iff_of_false (by simp) (fun h => h.1 (by tauto))
  · refine iff_of_true rfl ⟨?_, by omega⟩
    push_neg
    refine ⟨?_, ?_, ?_, ?_, ?_, ?_, ?_⟩ <;> first | tauto | omega
  · exact iff_of_false (by simp) (fun h => by omega)
  · exact iff_of_false (by simp) (fun h => by omega)
  · exact iff_of_false (by simp) (fun h => h.1 (by tauto))

theorem load_go_dispatch (line : List Char) (rest : List (List Char))
    (n : Nat) (buf : List Nat) (s : Nat) :
    load_go (line :: rest) n buf s =
      (if classifyType (hex_parse line).1 = RKind.data then
        load_go rest (n + 1)
          (writeChunk buf (hex_parse line).2.address
            ((hex_parse line).2.data.take (hex_parse line).2.length))
          (max s ((hex_parse line).2.address + (hex_parse line).2.length))
      else if classifyType (hex_parse line).1 = RKind.eof then
        { buf := buf, sz := s, warns := [] }
      else if classifyType (hex_parse line).1 = RKind.extended then
        { buf := (load_go rest (n + 1) buf s).buf, sz := (load_go rest (n + 1) buf s).sz,
          warns := (n, WMsg.extended) :: (load_go rest (n + 1) buf s).warns }
      else
        { buf := (load_go rest (n + 1) buf s).buf, sz := (load_go rest (n + 1) buf s).sz,
          warns := (n, WMsg.invalid) :: (load_go rest (n + 1) buf s).warns }) := by
  simp only [load_go, classifyType]
  split_ifs <;> first | rfl | simp_all

theorem load_go_skip_invalid (line : List Char) (rest : List (List Char))
    (n : Nat) (buf : List Nat) (s : Nat) (h : (hex_parse line).1 = -1) :
    load_go (line :: rest) n buf s =
      { buf := (load_go rest (n + 1) buf s).buf, sz := (load_go rest (n + 1) buf s).sz,
        warns := (n, WMsg.invalid) :: (load_go rest (n + 1) buf s).warns } := by
  simp [load_go, h]

/-! ## Claim theorems -/

/-- C1: the checksum invariant holds for the parser, but the encoder variant
with an image base computes the record checksum from
(base >> 8) + base + (i >> 8) + i, losing the carry out of the low bytes:
with image bytes 00 00, base 0x00FF, no entry point and wrap 1, the second
emitted data record is the line :0101000000FF, whose decoded byte sum is
1 mod 256 instead of 0, and the parser of the same program rejects it. -/
theorem C1_encoder_checksum_bug :
    (dump_hex2 [0, 0] 255 0 1).getD 1 [] = (":0101000000FF\n").toList ∧
    lineByteSum ((dump_hex2 [0, 0] 255 0 1).getD 1 []) % 256 = 1 ∧
    (hex_parse ((dump_hex2 [0, 0] 255 0 1).getD 1 [])).1 = -1 := by
  refine ⟨by decide, by decide, by decide⟩

/-- C2: encoding an image with dump_hex and decoding the lines with load_hex
returns exactly the original bytes (the hex2c.c image carries no separate
base or entry point: data records are emitted from address 0 upward and the
loader rebuilds the buffer from address 0, so both are preserved trivially),
with the full size recovered and no warnings. -/
theorem C2_round_trip (data : List Nat) (o_wrap : Nat)
    (hb : ∀ b ∈ data, b < 256) (hlen : data.length ≤ 65536) (hwrap : o_wrap ≤ 255) :
    load_image (dump_hex data o_wrap) = data ∧
    (load_hex (dump_hex data o_wrap)).sz = data.length ∧
    (load_hex (dump_hex data o_wrap)).warns = [] :=
  load_dump_roundtrip data o_wrap hb hlen hwrap

/-- C2 witness: the round trip evaluated on the concrete image AB CD with the
default wrap. -/
theorem C2_round_trip_witness :
    load_image (dump_hex [171, 205] 0) = [171, 205] ∧
    (load_hex (dump_hex [171, 205] 0)).sz = 2 ∧
    (load_hex (dump_hex [171, 205] 0)).warns = [] :=
  C2_round_trip [171, 205] 0 (by decide) (by decide) (by decide)

/-- C3 counterexample: a single Data record at address 1 of length 1 yields
an image of two bytes starting at address 0 (the 0xFF filler byte below the
lowest written address included), not the one-byte slice from the minimum
written extent that the claim describes. -/
theorem C3_no_min_extent_slicing :
    load_image [(":01000100FE00\n").toList, eofLine] = [255, 254] ∧
    minExtent (acceptedData [(":01000100FE00\n").toList, eofLine]) = 1 ∧
    maxExtent (acceptedData [(":01000100FE00\n").toList, eofLine]) = 2 ∧
    (load_image [(":01000100FE00\n").toList, eofLine]).length ≠ 2 - 1 := by
  refine ⟨by decide, by decide, by decide, by decide⟩

/-- C3 amended: load_hex slices the working buffer to the prefix
[0, max_written_extent); the base is always 0 and bytes below the lowest
written address stay in the image. -/
theorem C3_extent_amended (lines : List (List Char)) :
    (load_hex lines).sz = maxExtent (acceptedData lines) ∧
    (load_image lines).length = maxExtent (acceptedData lines) := by
  have h1 : (load_hex lines).sz = extFold (acceptedData lines) 0 :=
    load_go_sz lines 1 _ 0
  have hbuf : (load_hex lines).buf.length = 65536 :=
    load_go_buf_length lines 1 _ 0 (by rw [List.length_replicate, MAX_SIZE])
  have hle : (load_hex lines).sz ≤ 65536 := by
    rw [h1]
    exact extFold_le _ 0 (by omega) (fun c hc => (acceptedData_mem lines c hc).1)
  refine ⟨h1, ?_⟩
  rw [load_image, List.length_take, hbuf]
  rw [show min (load_hex lines).sz 65536 = (load_hex lines).sz by omega]
  exact h1

/-- C4: both encoders split the buffer into consecutive chunks of at most
wrap bytes (16 when the wrap option is 0), emitting exactly one data record
per chunk in ascending order, whose printed count field is the chunk length
and whose printed address field is the chunk offset (plus the image base in
the variant that has one), and the literal EOF record is always the final
emitted line. -/
theorem C4_dump_structure (data : List Nat) (base entry o_wrap : Nat) :
    (dump_hex data o_wrap =
      (List.range ((min data.length MAX_SIZE + (if o_wrap ≠ 0 then o_wrap else 16) - 1) /
          (if o_wrap ≠ 0 then o_wrap else 16))).map
        (fun k => dataLine ((if o_wrap ≠ 0 then o_wrap else 16) * k)
          ((data.drop ((if o_wrap ≠ 0 then o_wrap else 16) * k)).take
            (min (if o_wrap ≠ 0 then o_wrap else 16)
              (min data.length MAX_SIZE - (if o_wrap ≠ 0 then o_wrap else 16) * k)))) ++
        [eofLine]) ∧
    (dump_hex2 data base entry o_wrap =
      (List.range ((data.length + (if o_wrap ≠ 0 then o_wrap else 16) - 1) /
          (if o_wrap ≠ 0 then o_wrap else 16))).map
        (fun k => dataLine2 base ((if o_wrap ≠ 0 then o_wrap else 16) * k)
          ((data.drop ((if o_wrap ≠ 0 then o_wrap else 16) * k)).take
            (min (if o_wrap ≠ 0 then o_wrap else 16)
              (data.length - (if o_wrap ≠ 0 then o_wrap else 16) * k)))) ++
        (if 0 < entry then [startLine entry] else []) ++ [eofLine]) ∧
    (dump_hex data o_wrap).getLast? = some eofLine ∧
    (dump_hex2 data base entry o_wrap).getLast? = some eofLine := by
  refine ⟨dump_hex_eq data o_wrap _ rfl, dump_hex2_eq data base entry o_wrap _ rfl, ?_, ?_⟩
  · simp only [dump_hex]
    exact List.getLast?_concat _
  · simp only [dump_hex2]
    exact List.getLast?_concat _

/-- C5 counterexample: the claim declares every line of odd stripped length
Malformed, yet the EOF record line has stripped length 11, which is odd, and
the parser accepts it with type 1. -/
theorem C5_odd_length_cex :
    malformedCond 1 eofLine ∧ (hex_parse eofLine).1 = 1 ∧ ((1 : Int) ≠ -1) := by
  refine ⟨by decide, ?_, by decide⟩
  rw [hex_parse_eofLine]

/-- C5 amended: hex_parse rejects a line exactly when the classification is a
failure, the Malformed class holds exactly for the listed structural
conditions with EVEN stripped length (the other conditions as the claim
lists them), and the line :01003000FFFF passes every structural check
(13 = 11 + 2 * 1) but is rejected for its checksum, not as Malformed. -/
theorem C5_malformed_amended :
    (∀ line, ((hex_parse line).1 = -1 ↔ hex_classify line ≠ none)) ∧
    (∀ line, (hex_classify line = some PErr.malformed ↔ malformedCond 0 line)) ∧
    hex_classify ((":01003000FFFF").toList) = some PErr.checksum ∧
    (hex_parse ((":01003000FFFF").toList)).1 = -1 :=
  ⟨hex_classify_fail_iff, hex_classify_malformed_iff, by decide, by decide⟩

/-- C6: a structurally valid line is classified AddressOverflow exactly when
the decoded address plus count exceeds 65536; at the boundary, the Data
record with address 65535 and count 1 is accepted while address 65535 with
count 2 is rejected with AddressOverflow. -/
theorem C6_address_overflow :
    (∀ line, (hex_classify line = some PErr.addrOverflow ↔
      ¬ malformedCond 0 line ∧
        MAX_SIZE < hex_scan ((stripNL line).drop 3) 4 + hex_scan ((stripNL line).drop 1) 2)) ∧
    (hex_parse ((":01FFFF000001").toList)).1 = 0 ∧
    (hex_parse ((":01FFFF000001").toList)).2.address = 65535 ∧
    (hex_parse ((":01FFFF000001").toList)).2.length = 1 ∧
    (hex_parse ((":02FFFF00000000").toList)).1 = -1 ∧
    hex_classify ((":02FFFF00000000").toList) = some PErr.addrOverflow :=
  ⟨hex_classify_overflow_iff, by decide, by decide, by decide, by decide, by decide⟩

/-- C7 counterexample: the line :00000006FA is structurally valid and
checksum valid with record type 6, and hex_parse does not fail on it: it
returns the type itself, so an unknown type is not a parse failure of the
line parser. -/
theorem C7_unknown_type_not_parse_failure :
    hex_classify ((":00000006FA").toList) = none ∧
    (hex_parse ((":00000006FA").toList)).1 = 6 ∧ ((6 : Int) ≠ -1) :=
  ⟨by decide, by decide, by decide⟩

/-- C7 amended: the record kind is determined by the returned type exactly as
the specification maps it, but by the loader rather than the parser: type 0
is applied as data, type 1 stops the load, types 2 to 5 warn about an
extended record, and any other accepted type makes the loader record an
invalid-record warning and skip the line. -/
theorem C7_type_dispatch_amended (line : List Char) (rest : List (List Char))
    (n : Nat) (buf : List Nat) (s : Nat) :
    load_go (line :: rest) n buf s =
      (if classifyType (hex_parse line).1 = RKind.data then
        load_go rest (n + 1)
          (writeChunk buf (hex_parse line).2.address
            ((hex_parse line).2.data.take (hex_parse line).2.length))
          (max s ((hex_parse line).2.address + (hex_parse line).2.length))
      else if classifyType (hex_parse line).1 = RKind.eof then
        { buf := buf, sz := s, warns := [] }
      else if classifyType (hex_parse line).1 = RKind.extended then
        { buf := (load_go rest (n + 1) buf s).buf, sz := (load_go rest (n + 1) buf s).sz,
          warns := (n, WMsg.extended) :: (load_go rest (n + 1) buf s).warns }
      else
        { buf := (load_go rest (n + 1) buf s).buf, sz := (load_go rest (n + 1) buf s).sz,
          warns := (n, WMsg.invalid) :: (load_go rest (n + 1) buf s).warns }) :=
  load_go_dispatch line rest n buf s

/-- C8: a line that fails to parse makes the loader record an invalid-record
warning carrying its 1-based line number and continue with the next line
unchanged; an exhausted input produces the missing-EOF warning and returns
the state built so far; on the concrete input of one garbage line the load
finishes with exactly those two warnings, numbered from 1. -/
theorem C8_load_resilience :
    (∀ line rest n buf s, (hex_parse line).1 = -1 →
      load_go (line :: rest) n buf s =
        { buf := (load_go rest (n + 1) buf s).buf, sz := (load_go rest (n + 1) buf s).sz,
          warns := (n, WMsg.invalid) :: (load_go rest (n + 1) buf s).warns }) ∧
    (∀ n buf s, load_go [] n buf s = { buf := buf, sz := s, warns := [(n, WMsg.noEof)] }) ∧
    (load_hex [("xyz").toList]).warns = [(1, WMsg.invalid), (2, WMsg.noEof)] :=
  ⟨fun line rest n buf s h => load_go_skip_invalid line rest n buf s h,
    fun _ _ _ => rfl, by decide⟩

/-- C8 witness: the skip step applied to one concrete garbage line. -/
theorem C8_load_resilience_witness :
    load_go [("xyz").toList] 5 [7] 3 =
      { buf := (load_go [] 6 [7] 3).buf, sz := (load_go [] 6 [7] 3).sz,
        warns := (5, WMsg.invalid) :: (load_go [] 6 [7] 3).warns } :=
  C8_load_resilience.1 (("xyz").toList) [] 5 [7] 3 (by decide)

/-- C9: whenever hex_parse rejects a line, the returned CHUNK still has the
initialized address 0 and length 0, so a rejected line contributes no bytes
and no extent update. -/
theorem C9_rejected_chunk_initialized (line : List Char)
    (h : (hex_parse line).1 = -1) :
    (hex_parse line).2.address = 0 ∧ (hex_parse line).2.length = 0 :=
  hex_parse_fail_chunk line h

/-- C9 witness: the rejected garbage line xyz leaves address and length 0. -/
theorem C9_rejected_chunk_initialized_witness :
    (hex_parse (("xyz").toList)).1 = -1 ∧
    (hex_parse (("xyz").toList)).2.address = 0 ∧
    (hex_parse (("xyz").toList)).2.length = 0 :=
  ⟨by decide, C9_rejected_chunk_initialized (("xyz").toList) (by decide)⟩

/-- C10: in the image of a load, every position below the final size that no
accepted Data record covers holds the 0xFF filler the working buffer was
pre-initialized with. -/
theorem C10_unwritten_filler (lines : List (List Char)) (p : Nat)
    (hp : p < (load_hex lines).sz)
    (hout : ∀ c ∈ acceptedData lines, p < c.address ∨ c.address + c.length ≤ p) :
    (load_image lines)[p]? = some 255 := by
  have hRB : (List.replicate MAX_SIZE 255).length = 65536 := by
    rw [List.length_replicate, MAX_SIZE]
  have hle : (load_hex lines).sz ≤ 65536 := by
    have h1 : (load_hex lines).sz = extFold (acceptedData lines) 0 :=
      load_go_sz lines 1 _ 0
    rw [h1]
    exact extFold_le _ 0 (by omega) (fun c hc => (acceptedData_mem lines c hc).1)
  rw [load_image, List.getElem?_take_of_lt hp]
  rw [show load_hex lines = load_go lines 1 (List.replicate MAX_SIZE 255) 0 from rfl]
  rw [load_go_getElem_outside lines 1 _ 0 p hRB hout]
  rw [List.getElem?_replicate]
  rw [if_pos (by rw [MAX_SIZE]; omega)]

/-- C10 witness: address 0 of the two-byte image written only at address 1
still holds 0xFF. -/
theorem C10_unwritten_filler_witness :
    0 < (load_hex [(":01000100FE00\n").toList, eofLine]).sz ∧
    (load_image [(":01000100FE00\n").toList, eofLine])[0]? = some 255 :=
  ⟨by decide, C10_unwritten_filler _ 0 (by decide) (by decide)⟩

end Hex2c
